import Mathlib

/-!
Shallow embedding of `src/scope.rs` of tauri-plugin-unshell: the
capability-scoped command invocation validator (`Scope::_prepare`,
`Scope::prepare`, `Scope::prepare_sidecar`, `Scope::open`, `Scope::new`)
and the data model it operates on.

External collaborators (the `regex` crate's matching engine, the sidecar
locator `Command::new_sidecar`, the platform `open` handler, and the
path resolver used at construction time) are modelled as explicit
function parameters, following the collaborator contracts of the spec.

A Rust panic (the `unwrap()` on `Path::components().last()` and the
`unreachable!()` arm) is modelled by the `none` value of an outer
`Option` layer: `none` means the code panics, `some r` means it returns
the value `r`.
-/

namespace Unshell

/-- Model of a compiled `regex::Regex`: its source text (what
`Regex::to_string` / `Regex::as_str` print) together with its matching
function (`Regex::is_match`, an external collaborator of the core). -/
structure Regex where
  source : String
  isMatch : String → Bool

/-- Rust `ExecuteArgs`: allowed representation of `Execute` command arguments. -/
inductive ExecuteArgs where
  /-- No arguments -/
  | None : ExecuteArgs
  /-- A single string argument -/
  | Single : String → ExecuteArgs
  /-- Multiple string arguments -/
  | List : List String → ExecuteArgs

/-- Rust `ExecuteArgs::is_empty`: whether the argument list is empty or not. -/
def ExecuteArgs.is_empty : ExecuteArgs → Bool
  | .None => true
  | .Single s => s.isEmpty
  | .List l => l.isEmpty

/-- Rust `ScopeAllowedArg`: a configured argument to a scoped shell command. -/
inductive ScopeAllowedArg where
  /-- A non-configurable argument. -/
  | Fixed : String → ScopeAllowedArg
  /-- An argument evaluated at runtime, must pass a regex validation. -/
  | Var : (validator : Regex) → ScopeAllowedArg

/-- Rust `ScopeAllowedArg::is_fixed`: if the argument is fixed. -/
def ScopeAllowedArg.is_fixed : ScopeAllowedArg → Bool
  | .Fixed _ => true
  | .Var _ => false

/-- Rust `ScopeAllowedCommand`: a configured scoped shell command.
`command` is the `PathBuf` field, modelled as a string. -/
structure ScopeAllowedCommand where
  command : String
  args : Option (List ScopeAllowedArg)
  sidecar : Bool

/-- Rust `ScopeConfig`: shell scope configuration.  The `scopes` HashMap is
modelled as an association list with unique keys (lookup is by key, and
`Scope::new` rewrites each entry's value independently, so the list
order is irrelevant to every operation). -/
structure ScopeConfig where
  «open» : Option Regex
  scopes : List (String × ScopeAllowedCommand)

/-- Rust `Scope(ScopeConfig)`. -/
structure Scope where
  config : ScopeConfig

/-- The `Error` enum of `scope.rs`.  Each payload is the data the Rust
variant carries (`io::Error` and regexes appear via their display
strings).  The source variant `Io` is spelled `IoError` here. -/
inductive Error where
  | BadSidecarFlag : Error
  | Sidecar : String → Error
  | NotFound : String → Error
  | MissingVar : Nat → String → Error
  | Validation : (index : Nat) → (validation : String) → Error
  | InvalidInput : String → Error
  | IoError : String → Error
deriving DecidableEq, Repr

/-- Model of a Tauri `Command` invocation descriptor: a program
identifier plus its argument list. -/
structure Command where
  program : String
  args : List String
deriving DecidableEq, Repr

/-- Rust `Command::new`. -/
def Command.new (program : String) : Command := ⟨program, []⟩

/-- Rust `Command::args`: appends arguments to the descriptor. -/
def Command.appendArgs (c : Command) (a : List String) : Command :=
  { c with args := c.args ++ a }

/-- Splits a character list on `/`, keeping empty pieces (the raw
splitting underlying the path-component model below). -/
def splitOnSlash : List Char → List (List Char)
  | [] => [[]]
  | c :: rest =>
    let r := splitOnSlash rest
    if c = '/' then [] :: r
    else
      match r with
      | [] => [[c]]
      | p :: ps => (c :: p) :: ps

/-- Model (Unix semantics) of
`PathBuf::from(s).components().last().map(|c| c.as_os_str())`:
normal pieces are the `/`-separated non-empty pieces other than `.`;
if none remain, an absolute path still has its `RootDir` component
(`"/"`), a path starting with a `.` piece keeps the leading `CurDir`
component (`"."`), and the empty path has no components at all
(`none`, on which the source's `unwrap()` panics). -/
def pathComponentsLast (s : String) : Option String :=
  let pieces := (splitOnSlash s.toList).map (fun cs => String.mk cs)
  let comps := pieces.filter (fun p => p != "" && p != ".")
  match comps.getLast? with
  | some c => some c
  | none =>
    if s.toList.head? = some '/' then some "/"
    else if pieces.head? = some "." then some "."
    else none

/-- The per-entry closure of the positional-reconciliation branch of
`_prepare` (`(Some(list), ExecuteArgs::List(args))`): a `Fixed` entry
emits its literal, a `Var` entry requires `args[i]` to exist (else
`MissingVar`) and to match its validator (else `Validation`). -/
def reconcileEntry (args : List String) (x : Nat × ScopeAllowedArg) :
    Except Error String :=
  match x.2 with
  | .Fixed fixed => Except.ok fixed
  | .Var validator =>
    match args.get? x.1 with
    | none => Except.error (Error.MissingVar x.1 validator.source)
    | some value =>
      if validator.isMatch value then Except.ok value
      else Except.error (Error.Validation x.1 validator.source)

/-- The positional-reconciliation branch of `_prepare`:
`list.iter().enumerate().map(..).collect::<Result<Vec<_>, _>>()`. -/
def resolveList (list : List ScopeAllowedArg) (args : List String) :
    Except Error (List String) :=
  list.enum.mapM (reconcileEntry args)

/-- The empty-caller-args branch of `_prepare`: every entry is mapped to
its fixed literal; a `Var` entry hits the source's `unreachable!()`
(modelled as `none`), which the guard `all is_fixed` makes impossible. -/
def collectFixed : List ScopeAllowedArg → Option (List String)
  | [] => some []
  | .Fixed fixed :: rest => (collectFixed rest).map (fun out => fixed :: out)
  | .Var _ :: _ => none

/-- The four-way `match (&command.args, args)` of `_prepare` (lines
192-227 of `scope.rs`), arms in source order: the `List` caller shape is
matched before the empty/all-fixed guard, and the two trailing
`InvalidInput` arms are kept separate as in the source.  `none` models a
panic. -/
def resolveArgs (template : Option (List ScopeAllowedArg))
    (args : ExecuteArgs) (command_name : String) :
    Option (Except Error (List String)) :=
  match template, args with
  | none, .None => some (Except.ok [])
  | none, .List list => some (Except.ok list)
  | none, .Single string => some (Except.ok [string])
  | some list, .List args => some (resolveList list args)
  | some list, arg =>
    if arg.is_empty && list.all ScopeAllowedArg.is_fixed then
      match collectFixed list with
      | some vals => some (Except.ok vals)
      | none => none
    else if list.isEmpty then some (Except.error (Error.InvalidInput command_name))
    else some (Except.error (Error.InvalidInput command_name))

/-- Rust `Scope::_prepare`: the shared decision procedure behind `prepare`
and `prepare_sidecar`.  `newSidecar` is the external sidecar locator
(`Command::new_sidecar`); its error is wrapped as `Error::Sidecar`.
The outer `Option` models panics: the `unwrap()` on
`components().last()` panics (`none`) when the sidecar script has no
path components, and the `unreachable!()` arm of the all-fixed branch
propagates through `resolveArgs`. -/
def Scope._prepare (newSidecar : String → Except String Command)
    (self : Scope) (command_name : String) (args : ExecuteArgs)
    (sidecar : Option String) : Option (Except Error Command) :=
  match self.config.scopes.lookup command_name with
  | none => some (Except.error (Error.NotFound command_name))
  | some command =>
    if command.sidecar != sidecar.isSome then
      some (Except.error Error.BadSidecarFlag)
    else
      match resolveArgs command.args args command_name with
      | none => none
      | some (Except.error e) => some (Except.error e)
      | some (Except.ok args) =>
        match
          (match sidecar with
           | some s => pathComponentsLast s
           | none => some command.command) with
        | none => none
        | some command_s =>
          if command.sidecar then
            match newSidecar command_s with
            | Except.error e => some (Except.error (Error.Sidecar e))
            | Except.ok c => some (Except.ok (c.appendArgs args))
          else
            some (Except.ok ((Command.new command_s).appendArgs args))

/-- Rust `Scope::prepare_sidecar`. -/
def Scope.prepare_sidecar (newSidecar : String → Except String Command)
    (self : Scope) (command_name : String) (command_script : String)
    (args : ExecuteArgs) : Option (Except Error Command) :=
  Scope._prepare newSidecar self command_name args (some command_script)

/-- Rust `Scope::prepare`. -/
def Scope.prepare (newSidecar : String → Except String Command)
    (self : Scope) (command_name : String) (args : ExecuteArgs) :
    Option (Except Error Command) :=
  Scope._prepare newSidecar self command_name args none

/-- Rust `Scope::new`: best-effort path resolution of every command at
construction time via the external path resolver (`manager.path().parse`,
the `parse` parameter); entries whose resolution fails keep their
original `command`. -/
def Scope.new (parse : String → Except String String)
    (scope : ScopeConfig) : Scope :=
  ⟨{ scope with
      scopes := scope.scopes.map (fun entry =>
        (entry.1,
         match parse entry.2.command with
         | Except.ok path => { entry.2 with command := path }
         | Except.error _ => entry.2)) }⟩

/-- The external `open` crate, one collaborator function for both
`open::that(path)` (second argument `none`) and
`open::with(path, program)` (second argument `some program`). -/
def OpenCollab : Type := String → Option String → Except String Unit

/-- Model of `crate::open::Program`, identified by its `name()`. -/
structure Program where
  name : String

/-- Rust `Scope::open`: validates `path` against the configured `open`
pattern if there is one, then delegates to the external `open`
collaborator; collaborator failures surface as `Error::Io`. -/
def Scope.«open» (openCollab : OpenCollab) (self : Scope) (path : String)
    (w : Option Program) : Except Error Unit :=
  match self.config.«open» with
  | some regex =>
    if !(regex.isMatch path) then
      Except.error (Error.Validation 0 regex.source)
    else
      (openCollab path (w.map Program.name)).mapError Error.IoError
  | none =>
    (openCollab path (w.map Program.name)).mapError Error.IoError

/-- The fixed literals of a template, in order (used to state what the
all-fixed branches produce). -/
def fixedValues (list : List ScopeAllowedArg) : List String :=
  list.filterMap (fun a =>
    match a with
    | ScopeAllowedArg.Fixed v => some v
    | ScopeAllowedArg.Var _ => none)

/-- Spec-side positional reconciliation, written from the words of
§4.3 step 3 of the spec: "for each template entry at index `i`: if
`Fixed(v)`, emit `v` regardless of `supplied`; if `Variable(pattern)`,
require `supplied[i]` to exist (else fail `MissingVar(i, pattern)`) and
to match `pattern` (else fail `Validation{index: i, validation:
pattern}`); on success emit `supplied[i]`" — the first failing entry, in
template order, determines the error.  This is the comparison point for
the refinement claim C5 about `resolveList`. -/
def reconcileSpec (supplied : List String) :
    Nat → List ScopeAllowedArg → Except Error (List String)
  | _, [] => Except.ok []
  | i, ScopeAllowedArg.Fixed v :: rest =>
    (reconcileSpec supplied (i+1) rest).map (fun out => v :: out)
  | i, ScopeAllowedArg.Var r :: rest =>
    match supplied.get? i with
    | none => Except.error (Error.MissingVar i r.source)
    | some value =>
      if r.isMatch value then
        (reconcileSpec supplied (i+1) rest).map (fun out => value :: out)
      else Except.error (Error.Validation i r.source)

/-- A sidecar locator that always succeeds (concrete instantiation of
the external `Command::new_sidecar` collaborator for the closed
theorems below). -/
def locateOk : String → Except String Command :=
  fun s => Except.ok (Command.new s)

/-- A one-command scope whose single entry is a sidecar with no
argument template. -/
def sidecarDemoScope : Scope :=
  ⟨⟨none, [("run", ⟨"app", none, true⟩)]⟩⟩

/-- A one-command scope whose single entry has the empty template
`Some([])`. -/
def emptyTemplateScope : Scope :=
  ⟨⟨none, [("c", ⟨"prog", some [], false⟩)]⟩⟩

/-- A scope for exercising the non-sidecar entry points: one plain
command without a template. -/
def plainScope : Scope :=
  ⟨⟨none, [("echo", ⟨"bin/echo", none, false⟩)]⟩⟩

/-- A digits-only validator: concrete instantiation of the external
pattern matcher for closed theorems. -/
def digitsRegex : Regex :=
  ⟨"^\\d+$", fun s => !s.isEmpty && s.toList.all Char.isDigit⟩

/-- A one-command scope whose single entry's template is one `Var`. -/
def varTemplateScope : Scope :=
  ⟨⟨none, [("v", ⟨"vprog", some [ScopeAllowedArg.Var digitsRegex], false⟩)]⟩⟩

/-- A two-fixed-entry command scope. -/
def fixedTemplateScope : Scope :=
  ⟨⟨none, [("f", ⟨"fprog",
    some [ScopeAllowedArg.Fixed "x", ScopeAllowedArg.Fixed "y"], false⟩)]⟩⟩

/-- An open-gated scope whose pattern accepts exactly the strings
starting with an `h` (a stand-in matcher for `^https?://.+`). -/
def openGateScope : Scope :=
  ⟨⟨some ⟨"^https?://.+", fun s => s.toList.head? = some 'h'⟩, []⟩⟩

/-- Whether a prepared result is the `Sidecar` error (claim C10 says
`prepare` can never produce it). -/
def isSidecarErrorResult : Option (Except Error Command) → Bool
  | some (Except.error (Error.Sidecar _)) => true
  | _ => false

theorem except_bind_ok {ε α β : Type} (v : α) (f : α → Except ε β) :
    (Except.ok v >>= f) = f v := rfl

theorem except_bind_error {ε α β : Type} (e : ε) (f : α → Except ε β) :
    ((Except.error e : Except ε α) >>= f) = Except.error e := rfl

theorem except_pure {ε α : Type} (v : α) :
    (pure v : Except ε α) = Except.ok v := rfl

theorem enumFrom_mapM_reconcile (args : List String) (list : List ScopeAllowedArg) :
    ∀ n, (List.enumFrom n list).mapM (reconcileEntry args) = reconcileSpec args n list := by
  induction list with
  | nil => intro n; rfl
  | cons a rest ih =>
    intro n
    rw [List.enumFrom_cons, List.mapM_cons]
    cases a with
    | Fixed v =>
      rw [show reconcileEntry args (n, ScopeAllowedArg.Fixed v) = Except.ok v from rfl,
          except_bind_ok, ih (n+1)]
      cases hr : reconcileSpec args (n+1) rest <;>
        simp [reconcileSpec, hr, except_bind_ok, except_bind_error, except_pure, Except.map]
    | Var r =>
      rw [ih (n+1)]
      cases h : args[n]? with
      | none =>
        simp [reconcileEntry, reconcileSpec, List.get?_eq_getElem?, h,
          except_bind_error, except_bind_ok, except_pure, Except.map]
      | some value =>
        cases hm : r.isMatch value with
        | false =>
          simp [reconcileEntry, reconcileSpec, List.get?_eq_getElem?, h, hm,
            except_bind_error, except_bind_ok, except_pure, Except.map]
        | true =>
          cases hr : reconcileSpec args (n+1) rest <;>
            simp [reconcileEntry, reconcileSpec, List.get?_eq_getElem?, h, hm, hr,
              except_bind_ok, except_bind_error, except_pure, Except.map]

/-- The code's positional reconciliation (`enumerate` + `collect`)
computes exactly the spec-side positional reconciliation. -/
theorem resolveList_eq_reconcileSpec (list : List ScopeAllowedArg) (args : List String) :
    resolveList list args = reconcileSpec args 0 list :=
  enumFrom_mapM_reconcile args list 0

theorem collectFixed_all_fixed (list : List ScopeAllowedArg)
    (h : list.all ScopeAllowedArg.is_fixed = true) :
    collectFixed list = some (fixedValues list) := by
  induction list with
  | nil => rfl
  | cons a rest ih =>
    cases a with
    | Fixed v =>
      have hrest : rest.all ScopeAllowedArg.is_fixed = true := by
        simpa [ScopeAllowedArg.is_fixed] using h
      simp [collectFixed, fixedValues, ih hrest]
    | Var r => simp [ScopeAllowedArg.is_fixed] at h

theorem reconcileSpec_all_fixed (supplied : List String) (list : List ScopeAllowedArg)
    (h : list.all ScopeAllowedArg.is_fixed = true) :
    ∀ n, reconcileSpec supplied n list = Except.ok (fixedValues list) := by
  induction list with
  | nil => intro n; rfl
  | cons a rest ih =>
    intro n
    cases a with
    | Fixed v =>
      have hrest : rest.all ScopeAllowedArg.is_fixed = true := by
        simpa [ScopeAllowedArg.is_fixed] using h
      simp [reconcileSpec, ih hrest (n+1), fixedValues, Except.map]
    | Var r => simp [ScopeAllowedArg.is_fixed] at h

theorem reconcileSpec_nil_supplied_missing (list : List ScopeAllowedArg)
    (h : list.all ScopeAllowedArg.is_fixed = false) :
    ∀ n, ∃ i src, reconcileSpec [] n list = Except.error (Error.MissingVar i src) := by
  induction list with
  | nil => simp [List.all_nil] at h
  | cons a rest ih =>
    intro n
    cases a with
    | Fixed v =>
      have hrest : rest.all ScopeAllowedArg.is_fixed = false := by
        simpa [ScopeAllowedArg.is_fixed] using h
      obtain ⟨i, src, hi⟩ := ih hrest (n+1)
      exact ⟨i, src, by simp [reconcileSpec, hi, Except.map]⟩
    | Var r =>
      exact ⟨n, r.source, by simp [reconcileSpec]⟩

theorem reconcileSpec_error_shape (supplied : List String) (list : List ScopeAllowedArg) :
    ∀ n e, reconcileSpec supplied n list = Except.error e →
      (∃ i src, e = Error.MissingVar i src) ∨ (∃ i src, e = Error.Validation i src) := by
  induction list with
  | nil => intro n e h; exact absurd h (by simp [reconcileSpec])
  | cons a rest ih =>
    intro n e h
    cases a with
    | Fixed v =>
      rw [reconcileSpec] at h
      cases hr : reconcileSpec supplied (n+1) rest with
      | error e2 =>
        rw [hr] at h
        simp [Except.map] at h
        exact h ▸ ih (n+1) e2 hr
      | ok out => rw [hr] at h; simp [Except.map] at h
    | Var r =>
      rw [reconcileSpec] at h
      cases hg : supplied.get? n with
      | none =>
        rw [hg] at h
        simp at h
        exact Or.inl ⟨n, r.source, h.symm⟩
      | some value =>
        rw [hg] at h
        replace h : (if r.isMatch value = true then
            Except.map (fun out => value :: out) (reconcileSpec supplied (n + 1) rest)
          else Except.error (Error.Validation n r.source)) = Except.error e := h
        cases hm : r.isMatch value with
        | false =>
          rw [hm] at h
          simp at h
          exact Or.inr ⟨n, r.source, h.symm⟩
        | true =>
          rw [hm] at h
          simp only [if_true] at h
          cases hr : reconcileSpec supplied (n+1) rest with
          | error e2 =>
            rw [hr] at h
            simp [Except.map] at h
            exact h ▸ ih (n+1) e2 hr
          | ok out => rw [hr] at h; simp [Except.map] at h

theorem reconcileSpec_append (supplied extra : List String) (list : List ScopeAllowedArg) :
    ∀ n, n + list.length ≤ supplied.length →
      reconcileSpec (supplied ++ extra) n list = reconcileSpec supplied n list := by
  induction list with
  | nil => intro n _; rfl
  | cons a rest ih =>
    intro n hn
    have hn' : n + 1 + rest.length ≤ supplied.length := by
      simpa [Nat.add_comm, Nat.add_left_comm, Nat.add_assoc] using hn
    cases a with
    | Fixed v => rw [reconcileSpec, reconcileSpec, ih (n+1) hn']
    | Var r =>
      have hlt : n < supplied.length := by omega
      have hget : (supplied ++ extra).get? n = supplied.get? n := by
        simp [List.get?_eq_getElem?, List.getElem?_append_left hlt]
      rw [reconcileSpec, reconcileSpec, hget, ih (n+1) hn']

theorem resolveArgs_error_shape (template : Option (List ScopeAllowedArg))
    (args : ExecuteArgs) (name : String) (e : Error)
    (h : resolveArgs template args name = some (Except.error e)) :
    (∃ s, e = Error.InvalidInput s) ∨ (∃ i src, e = Error.MissingVar i src) ∨
    (∃ i src, e = Error.Validation i src) := by
  cases template with
  | none => cases args <;> simp [resolveArgs] at h
  | some list =>
    cases args with
    | List l =>
      simp only [resolveArgs, Option.some.injEq] at h
      have h2 : reconcileSpec l 0 list = Except.error e := by
        rw [← resolveList_eq_reconcileSpec]; exact h
      exact Or.inr (reconcileSpec_error_shape l list 0 e h2)
    | None =>
      replace h : (if (ExecuteArgs.None.is_empty && list.all ScopeAllowedArg.is_fixed) = true then
          (match collectFixed list with
           | some vals => some (Except.ok vals)
           | none => none)
        else if list.isEmpty = true then some (Except.error (Error.InvalidInput name))
        else some (Except.error (Error.InvalidInput name))) = some (Except.error e) := h
      by_cases hg : (ExecuteArgs.None.is_empty && list.all ScopeAllowedArg.is_fixed) = true
      · rw [if_pos hg] at h
        cases hc : collectFixed list <;> rw [hc] at h <;> simp at h
      · rw [if_neg hg] at h
        by_cases hl : list.isEmpty = true
        · rw [if_pos hl] at h
          simp at h
          exact Or.inl ⟨name, h.symm⟩
        · rw [if_neg hl] at h
          simp at h
          exact Or.inl ⟨name, h.symm⟩
    | Single s =>
      replace h : (if ((ExecuteArgs.Single s).is_empty && list.all ScopeAllowedArg.is_fixed) = true then
          (match collectFixed list with
           | some vals => some (Except.ok vals)
           | none => none)
        else if list.isEmpty = true then some (Except.error (Error.InvalidInput name))
        else some (Except.error (Error.InvalidInput name))) = some (Except.error e) := h
      by_cases hg : ((ExecuteArgs.Single s).is_empty && list.all ScopeAllowedArg.is_fixed) = true
      · rw [if_pos hg] at h
        cases hc : collectFixed list <;> rw [hc] at h <;> simp at h
      · rw [if_neg hg] at h
        by_cases hl : list.isEmpty = true
        · rw [if_pos hl] at h
          simp at h
          exact Or.inl ⟨name, h.symm⟩
        · rw [if_neg hl] at h
          simp at h
          exact Or.inl ⟨name, h.symm⟩

/-- Claim C1 (refuted; the code contradicts the spec's "never panics"):
the spec says `prepare`, `prepare_sidecar` and `open` never panic and
return every failure as a typed error — in particular `prepare_sidecar`
with any sidecar-script string, including the empty string, on a record
whose sidecar flag matches.  The code violates this: with the empty
script string it reaches
`PathBuf::from("").components().last().unwrap()`, which panics
(modelled by `none`). -/
theorem c1_prepare_sidecar_empty_script_panics :
    Scope.prepare_sidecar locateOk sidecarDemoScope "run" "" ExecuteArgs.None = none := rfl

/-- Counterexample to claim C2: with the empty template `Some([])` and
the non-empty caller args `List(["a"])`, the decision procedure
succeeds with an empty resolved argument list instead of failing with
`InvalidInput` — the `(Some(list), List(args))` match arm precedes the
empty-template arm. -/
theorem c2_empty_template_counterexample :
    Scope.prepare locateOk emptyTemplateScope "c" (ExecuteArgs.List ["a"])
      = some (Except.ok ⟨"prog", []⟩) ∧
    Scope.prepare locateOk emptyTemplateScope "c" (ExecuteArgs.List ["a"])
      ≠ some (Except.error (Error.InvalidInput "c")) := by
  refine ⟨rfl, ?_⟩
  intro h
  rw [show Scope.prepare locateOk emptyTemplateScope "c" (ExecuteArgs.List ["a"])
        = some (Except.ok ⟨"prog", []⟩) from rfl] at h
  simp at h

/-- Claim C2 (amended): for a command with the empty template
`Some([])`, a non-empty `Single` caller value fails with
`InvalidInput(name)`, but a `List` caller value of any length is taken
by the positional branch and succeeds, producing a descriptor with no
arguments. -/
theorem c2_empty_template_amended (ns : String → Except String Command)
    (self : Scope) (name : String) (cmd : ScopeAllowedCommand)
    (hfind : self.config.scopes.lookup name = some cmd)
    (hargs : cmd.args = some []) (hside : cmd.sidecar = false) :
    (∀ s, s ≠ "" → Scope.prepare ns self name (ExecuteArgs.Single s)
        = some (Except.error (Error.InvalidInput name))) ∧
    (∀ supplied, Scope.prepare ns self name (ExecuteArgs.List supplied)
        = some (Except.ok ⟨cmd.command, []⟩)) := by
  constructor
  · intro s hs
    have hsempty : s.isEmpty = false := by
      rw [Bool.eq_false_iff]
      intro hh
      exact hs ((String.isEmpty_iff s).mp hh)
    simp [Scope.prepare, Scope._prepare, hfind, hside, hargs, resolveArgs,
      ExecuteArgs.is_empty, hsempty]
  · intro supplied
    simp [Scope.prepare, Scope._prepare, hfind, hside, hargs, resolveArgs,
      resolveList_eq_reconcileSpec, reconcileSpec, Command.new, Command.appendArgs]

/-- Witness for the amended claim C2 at a concrete scope. -/
theorem c2_empty_template_amended_witness :
    Scope.prepare locateOk emptyTemplateScope "c" (ExecuteArgs.Single "a")
      = some (Except.error (Error.InvalidInput "c")) ∧
    Scope.prepare locateOk emptyTemplateScope "c" (ExecuteArgs.List ["a", "b"])
      = some (Except.ok ⟨"prog", []⟩) :=
  ⟨(c2_empty_template_amended locateOk emptyTemplateScope "c" ⟨"prog", some [], false⟩
      rfl rfl rfl).1 "a" (by simp),
   (c2_empty_template_amended locateOk emptyTemplateScope "c" ⟨"prog", some [], false⟩
      rfl rfl rfl).2 ["a", "b"]⟩

/-- Claim C6: with `template = None` the caller's args pass through
verbatim and unvalidated: `None` yields no arguments, `Single(s)`
yields `[s]`, and `List(l)` yields `l` unchanged. -/
theorem c6_no_template_passthrough (ns : String → Except String Command)
    (self : Scope) (name : String) (cmd : ScopeAllowedCommand)
    (hfind : self.config.scopes.lookup name = some cmd)
    (hargs : cmd.args = none) (hside : cmd.sidecar = false) :
    Scope.prepare ns self name ExecuteArgs.None
      = some (Except.ok ⟨cmd.command, []⟩) ∧
    (∀ s, Scope.prepare ns self name (ExecuteArgs.Single s)
      = some (Except.ok ⟨cmd.command, [s]⟩)) ∧
    (∀ l, Scope.prepare ns self name (ExecuteArgs.List l)
      = some (Except.ok ⟨cmd.command, l⟩)) := by
  refine ⟨?_, fun s => ?_, fun l => ?_⟩ <;>
    simp [Scope.prepare, Scope._prepare, hfind, hside, hargs, resolveArgs,
      Command.new, Command.appendArgs]

/-- Witness for claim C6 at a concrete scope. -/
theorem c6_no_template_passthrough_witness :
    Scope.prepare locateOk plainScope "echo" (ExecuteArgs.Single "foo")
      = some (Except.ok ⟨"bin/echo", ["foo"]⟩) ∧
    Scope.prepare locateOk plainScope "echo" (ExecuteArgs.List ["a", "b"])
      = some (Except.ok ⟨"bin/echo", ["a", "b"]⟩) :=
  ⟨(c6_no_template_passthrough locateOk plainScope "echo" ⟨"bin/echo", none, false⟩
      rfl rfl rfl).2.1 "foo",
   (c6_no_template_passthrough locateOk plainScope "echo" ⟨"bin/echo", none, false⟩
      rfl rfl rfl).2.2 ["a", "b"]⟩

/-- Claim C8: if the record's `sidecar` flag does not equal whether a
sidecar script was supplied, the shared decision procedure fails with
`BadSidecarFlag` for every possible caller args value — the rejection
precedes all argument processing. -/
theorem c8_bad_sidecar_flag (ns : String → Except String Command)
    (self : Scope) (name : String) (cmd : ScopeAllowedCommand)
    (sidecar : Option String)
    (hfind : self.config.scopes.lookup name = some cmd)
    (hmis : cmd.sidecar ≠ sidecar.isSome) :
    ∀ args, Scope._prepare ns self name args sidecar
      = some (Except.error Error.BadSidecarFlag) := by
  intro args
  simp [Scope._prepare, hfind, bne_iff_ne, hmis]

/-- Witness for claim C8, in both directions: `prepare` on a sidecar
record and `prepare_sidecar` on a non-sidecar record. -/
theorem c8_bad_sidecar_flag_witness :
    Scope.prepare locateOk sidecarDemoScope "run" (ExecuteArgs.Single "x")
      = some (Except.error Error.BadSidecarFlag) ∧
    Scope.prepare_sidecar locateOk plainScope "echo" "script" ExecuteArgs.None
      = some (Except.error Error.BadSidecarFlag) :=
  ⟨c8_bad_sidecar_flag locateOk sidecarDemoScope "run" ⟨"app", none, true⟩ none
      rfl (by simp) (ExecuteArgs.Single "x"),
   c8_bad_sidecar_flag locateOk plainScope "echo" ⟨"bin/echo", none, false⟩ (some "script")
      rfl (by simp) ExecuteArgs.None⟩

/-- Counterexample to claim C3: a command whose template is the single
entry `Variable(^\d+$)` invoked with the empty `List` fails with
`MissingVar(0, ..)`, not with `InvalidInput` as the claim states. -/
theorem c3_var_template_empty_list_counterexample :
    Scope.prepare locateOk varTemplateScope "v" (ExecuteArgs.List [])
      = some (Except.error (Error.MissingVar 0 "^\\d+$")) ∧
    Scope.prepare locateOk varTemplateScope "v" (ExecuteArgs.List [])
      ≠ some (Except.error (Error.InvalidInput "v")) := by
  refine ⟨rfl, ?_⟩
  intro h
  rw [show Scope.prepare locateOk varTemplateScope "v" (ExecuteArgs.List [])
        = some (Except.error (Error.MissingVar 0 "^\\d+$")) from rfl] at h
  simp at h

/-- Claim C3 (amended): for a command whose template contains at least
one `Variable` entry, invocation with `None` args or any `Single` args
fails with `InvalidInput(name)`; the empty `List`, however, goes
through positional reconciliation and fails with `MissingVar` at the
first `Variable` index. -/
theorem c3_var_template_amended (ns : String → Except String Command)
    (self : Scope) (name : String) (cmd : ScopeAllowedCommand)
    (list : List ScopeAllowedArg)
    (hfind : self.config.scopes.lookup name = some cmd)
    (hargs : cmd.args = some list) (hside : cmd.sidecar = false)
    (hvar : list.all ScopeAllowedArg.is_fixed = false) :
    Scope.prepare ns self name ExecuteArgs.None
      = some (Except.error (Error.InvalidInput name)) ∧
    (∀ s, Scope.prepare ns self name (ExecuteArgs.Single s)
      = some (Except.error (Error.InvalidInput name))) ∧
    (∃ i src, Scope.prepare ns self name (ExecuteArgs.List [])
      = some (Except.error (Error.MissingVar i src))) := by
  refine ⟨?_, fun s => ?_, ?_⟩
  · simp [Scope.prepare, Scope._prepare, hfind, hside, hargs, resolveArgs, hvar,
      ExecuteArgs.is_empty, Bool.and_false]
  · simp [Scope.prepare, Scope._prepare, hfind, hside, hargs, resolveArgs, hvar,
      ExecuteArgs.is_empty, Bool.and_false]
  · obtain ⟨i, src, hi⟩ := reconcileSpec_nil_supplied_missing list hvar 0
    refine ⟨i, src, ?_⟩
    simp [Scope.prepare, Scope._prepare, hfind, hside, hargs, resolveArgs,
      resolveList_eq_reconcileSpec, hi]

/-- Witness for the amended claim C3 at a concrete scope. -/
theorem c3_var_template_amended_witness :
    Scope.prepare locateOk varTemplateScope "v" ExecuteArgs.None
      = some (Except.error (Error.InvalidInput "v")) ∧
    Scope.prepare locateOk varTemplateScope "v" (ExecuteArgs.Single "1")
      = some (Except.error (Error.InvalidInput "v")) :=
  ⟨(c3_var_template_amended locateOk varTemplateScope "v"
      ⟨"vprog", some [ScopeAllowedArg.Var digitsRegex], false⟩
      [ScopeAllowedArg.Var digitsRegex] rfl rfl rfl rfl).1,
   (c3_var_template_amended locateOk varTemplateScope "v"
      ⟨"vprog", some [ScopeAllowedArg.Var digitsRegex], false⟩
      [ScopeAllowedArg.Var digitsRegex] rfl rfl rfl rfl).2.1 "1"⟩

/-- Claim C5: for a command with template `Some(list)` and caller args
`List(supplied)`, `prepare` performs strictly positional,
template-length-driven reconciliation: at index `i` a `Fixed(v)` entry
emits `v` regardless of `supplied`, a `Variable(pattern)` entry fails
with `MissingVar(i, pattern)` when `supplied[i]` is absent, fails with
`Validation{index: i, validation: pattern}` when present but not
matching, and emits `supplied[i]` on a match — `reconcileSpec` spells
out exactly this positional procedure — and values in `supplied`
beyond the template length are ignored. -/
theorem c5_positional_reconciliation (ns : String → Except String Command)
    (self : Scope) (name : String) (cmd : ScopeAllowedCommand)
    (list : List ScopeAllowedArg) (supplied : List String)
    (hfind : self.config.scopes.lookup name = some cmd)
    (hargs : cmd.args = some list) (hside : cmd.sidecar = false) :
    Scope.prepare ns self name (ExecuteArgs.List supplied)
      = some ((reconcileSpec supplied 0 list).map
          (fun out => (⟨cmd.command, out⟩ : Command))) ∧
    (list.length ≤ supplied.length → ∀ extra,
      Scope.prepare ns self name (ExecuteArgs.List (supplied ++ extra))
        = Scope.prepare ns self name (ExecuteArgs.List supplied)) := by
  constructor
  · cases hr : reconcileSpec supplied 0 list with
    | error e =>
      simp [Scope.prepare, Scope._prepare, hfind, hside, hargs, resolveArgs,
        resolveList_eq_reconcileSpec, hr, Except.map]
    | ok out =>
      simp [Scope.prepare, Scope._prepare, hfind, hside, hargs, resolveArgs,
        resolveList_eq_reconcileSpec, hr, Except.map, Command.new, Command.appendArgs]
  · intro hlen extra
    have hsame : resolveList list (supplied ++ extra) = resolveList list supplied := by
      rw [resolveList_eq_reconcileSpec, resolveList_eq_reconcileSpec,
        reconcileSpec_append supplied extra list 0 (by simpa using hlen)]
    simp [Scope.prepare, Scope._prepare, hfind, hside, hargs, resolveArgs, hsame]

/-- Witness for claim C5 at a concrete scope. -/
theorem c5_positional_reconciliation_witness :
    Scope.prepare locateOk varTemplateScope "v" (ExecuteArgs.List ["12"])
      = some ((reconcileSpec ["12"] 0 [ScopeAllowedArg.Var digitsRegex]).map
          (fun out => (⟨"vprog", out⟩ : Command))) ∧
    Scope.prepare locateOk varTemplateScope "v" (ExecuteArgs.List (["12"] ++ ["zz"]))
      = Scope.prepare locateOk varTemplateScope "v" (ExecuteArgs.List ["12"]) :=
  ⟨(c5_positional_reconciliation locateOk varTemplateScope "v"
      ⟨"vprog", some [ScopeAllowedArg.Var digitsRegex], false⟩
      [ScopeAllowedArg.Var digitsRegex] ["12"] rfl rfl rfl).1,
   (c5_positional_reconciliation locateOk varTemplateScope "v"
      ⟨"vprog", some [ScopeAllowedArg.Var digitsRegex], false⟩
      [ScopeAllowedArg.Var digitsRegex] ["12"] rfl rfl rfl).2 (by simp) ["zz"]⟩

/-- Claim C7: a command whose template consists only of `Fixed`
entries, invoked with empty args per the §4.1 emptiness predicate
(`None`, `Single("")`, or `List([])`), succeeds and resolves to exactly
the fixed values in template order. -/
theorem c7_all_fixed_empty_args (ns : String → Except String Command)
    (self : Scope) (name : String) (cmd : ScopeAllowedCommand)
    (list : List ScopeAllowedArg)
    (hfind : self.config.scopes.lookup name = some cmd)
    (hargs : cmd.args = some list) (hside : cmd.sidecar = false)
    (hfix : list.all ScopeAllowedArg.is_fixed = true) :
    ∀ args, args.is_empty = true →
      Scope.prepare ns self name args
        = some (Except.ok ⟨cmd.command, fixedValues list⟩) := by
  intro args hempty
  cases args with
  | None =>
    simp [Scope.prepare, Scope._prepare, hfind, hside, hargs, resolveArgs,
      ExecuteArgs.is_empty, hfix, collectFixed_all_fixed list hfix,
      Command.new, Command.appendArgs]
  | Single s =>
    have hs : s.isEmpty = true := by simpa [ExecuteArgs.is_empty] using hempty
    simp [Scope.prepare, Scope._prepare, hfind, hside, hargs, resolveArgs,
      ExecuteArgs.is_empty, hs, hfix, collectFixed_all_fixed list hfix,
      Command.new, Command.appendArgs]
  | List l =>
    have hl : l = [] := by simpa [ExecuteArgs.is_empty, List.isEmpty_iff] using hempty
    subst hl
    simp [Scope.prepare, Scope._prepare, hfind, hside, hargs, resolveArgs,
      resolveList_eq_reconcileSpec, reconcileSpec_all_fixed [] list hfix 0,
      Command.new, Command.appendArgs]

/-- Witness for claim C7 at a concrete scope. -/
theorem c7_all_fixed_empty_args_witness :
    Scope.prepare locateOk fixedTemplateScope "f" (ExecuteArgs.Single "")
      = some (Except.ok ⟨"fprog", ["x", "y"]⟩) :=
  c7_all_fixed_empty_args locateOk fixedTemplateScope "f"
    ⟨"fprog", some [ScopeAllowedArg.Fixed "x", ScopeAllowedArg.Fixed "y"], false⟩
    [ScopeAllowedArg.Fixed "x", ScopeAllowedArg.Fixed "y"]
    rfl rfl rfl rfl (ExecuteArgs.Single "") rfl

/-- Counterexample to claim C4: scope construction path-resolves
sidecar entries too — with a resolver mapping every path to
`"RESOLVED"`, a sidecar entry's `command` is rewritten away from its
originally specified `"orig"`. -/
theorem c4_sidecar_resolution_counterexample :
    (Scope.new (fun _ => Except.ok "RESOLVED")
        ⟨none, [("s", ⟨"orig", none, true⟩)]⟩).config.scopes.lookup "s"
      = some ⟨"RESOLVED", none, true⟩ ∧
    ("RESOLVED" : String) ≠ "orig" := ⟨rfl, by decide⟩

/-- Claim C4 (amended): scope construction attempts best-effort path
resolution for every entry, sidecar or not: each configured entry
survives with its `command` replaced by the resolver's answer when
resolution succeeds, and left as originally specified when resolution
fails, all other fields unchanged. -/
theorem c4_construction_amended (parse : String → Except String String)
    (scope : ScopeConfig) :
    ∀ name cmd, (name, cmd) ∈ scope.scopes →
      (name, { cmd with command :=
          (match parse cmd.command with
           | Except.ok p => p
           | Except.error _ => cmd.command) })
        ∈ (Scope.new parse scope).config.scopes := by
  intro name cmd hmem
  refine List.mem_map.mpr ⟨(name, cmd), hmem, ?_⟩
  cases hp : parse cmd.command <;> simp [hp]

/-- Witness for the amended claim C4: a failing resolver leaves the
(sidecar) entry exactly as specified. -/
theorem c4_construction_amended_witness :
    ("s", (⟨"orig", none, true⟩ : ScopeAllowedCommand))
      ∈ (Scope.new (fun _ => Except.error "nope")
          ⟨none, [("s", ⟨"orig", none, true⟩)]⟩).config.scopes :=
  c4_construction_amended (fun _ => Except.error "nope")
    ⟨none, [("s", ⟨"orig", none, true⟩)]⟩ "s" ⟨"orig", none, true⟩ (by simp)

/-- Claim C9: when an `open` pattern is configured and the path does
not match it, `open` fails with `Validation{index: 0, validation:
pattern}` independently of the collaborator (no delegation); when the
path matches, or when no pattern is configured, `open` delegates to the
external collaborator and surfaces its error as the `Io` error. -/
theorem c9_open_gate (oc : OpenCollab) (self : Scope) (path : String)
    (w : Option Program) :
    (∀ regex, self.config.«open» = some regex → regex.isMatch path = false →
      Scope.«open» oc self path w
        = Except.error (Error.Validation 0 regex.source)) ∧
    ((self.config.«open» = none ∨
        ∃ regex, self.config.«open» = some regex ∧ regex.isMatch path = true) →
      Scope.«open» oc self path w
        = (oc path (w.map Program.name)).mapError Error.IoError) := by
  constructor
  · intro regex hreg hmiss
    simp [Scope.«open», hreg, hmiss]
  · rintro (hnone | ⟨regex, hreg, hmatch⟩)
    · simp [Scope.«open», hnone]
    · simp [Scope.«open», hreg, hmatch]

/-- Witness for claim C9 at a concrete scope with a configured
pattern. -/
theorem c9_open_gate_witness :
    Scope.«open» (fun _ _ => Except.ok ()) openGateScope "ftp://example.com" none
      = Except.error (Error.Validation 0 "^https?://.+") ∧
    Scope.«open» (fun _ _ => Except.ok ()) openGateScope "https://example.com" none
      = Except.ok () :=
  ⟨(c9_open_gate (fun _ _ => Except.ok ()) openGateScope "ftp://example.com" none).1
      ⟨"^https?://.+", fun s => s.toList.head? = some 'h'⟩ rfl (by decide),
   (c9_open_gate (fun _ _ => Except.ok ()) openGateScope "https://example.com" none).2
      (Or.inr ⟨⟨"^https?://.+", fun s => s.toList.head? = some 'h'⟩, rfl, by decide⟩)⟩

/-- Claim C10: `prepare` (the non-sidecar entry point) never returns
the `Sidecar` error, whatever the scope configuration, command name,
caller args, and sidecar locator behaviour. -/
theorem c10_prepare_never_sidecar_error (ns : String → Except String Command)
    (self : Scope) (name : String) (args : ExecuteArgs) :
    isSidecarErrorResult (Scope.prepare ns self name args) = false := by
  rw [Scope.prepare, Scope._prepare]
  cases hfind : self.config.scopes.lookup name with
  | none => rfl
  | some cmd =>
    cases hside : cmd.sidecar with
    | true => simp [isSidecarErrorResult, hside]
    | false =>
      cases hra : resolveArgs cmd.args args name with
      | none => simp [isSidecarErrorResult, hside, hra]
      | some r =>
        cases r with
        | error e =>
          rcases resolveArgs_error_shape cmd.args args name e hra with
            ⟨s, rfl⟩ | ⟨i, src, rfl⟩ | ⟨i, src, rfl⟩ <;>
            simp [isSidecarErrorResult, hside, hra]
        | ok out => simp [isSidecarErrorResult, hside, hra]

end Unshell
